import Mathlib

/-!
Verification of the battery-logger analytics engine and time-chart
window-navigation state machine, shallowly embedded from the Go sources
(`internal/tui/utils.go`, package `analytics`, and
`internal/widgets/timechart.go`).

Modelling conventions:
* Timestamps and durations are rational numbers of minutes; Go `time.Time`
  and `time.Duration` arithmetic (nanosecond integers) and `float64`
  arithmetic are idealized as exact rational arithmetic.
* `math.Exp(alpha*x)` is transcendental, so the regression is parameterized
  by the weight function `wfn : ℚ → ℚ` standing for `fun x => exp (alpha*x)`;
  at decay `alpha = 0` the Go weight is `exp 0 = 1` exactly, which is the
  constant-one function `weightOne` below.
* `math.Inf(1)` (the infinite ETA) is modelled by the dedicated
  constructor `Est.inf`; every finite float value is `Est.fin q`.
* ℚ has no NaN, so the `math.IsNaN` skip branch of the renderer can never
  fire and is omitted.
-/

namespace BatteryLogger

/-- A single CSV record (`analytics.Row`): timestamp (rational minutes),
AC-connected flag, battery percentage. -/
structure Row where
  T : ℚ
  AC : Bool
  Batt : ℚ
  deriving DecidableEq, Repr

instance : Inhabited Row := ⟨⟨0, false, 0⟩⟩

/-- Weight function modelling `exp (alpha * x)` at `alpha = 0`:
`exp (0 * x) = 1` for every `x`. -/
def weightOne : ℚ → ℚ := fun _ => 1

/-- `analytics.WeightedLinReg` (utils.go lines 62-87): weighted linear
regression of battery percent against minutes-before-latest, with weights
given by `wfn` (in Go, `w = math.Exp(alpha*x)`).  The Go accumulation loop
is rendered as list sums.  Returns `(slope, intercept, ok)`. -/
def weightedLinReg (wfn : ℚ → ℚ) (rows : List Row) : ℚ × ℚ × Bool :=
  if rows.length < 2 then (0, 0, false)
  else
    let tNow := (rows.getLast?.getD default).T
    let sumW := (rows.map fun r => wfn (r.T - tNow)).sum
    let sumWX := (rows.map fun r => wfn (r.T - tNow) * (r.T - tNow)).sum
    let sumWY := (rows.map fun r => wfn (r.T - tNow) * r.Batt).sum
    let sumWXX := (rows.map fun r => wfn (r.T - tNow) * (r.T - tNow) * (r.T - tNow)).sum
    let sumWXY := (rows.map fun r => wfn (r.T - tNow) * (r.T - tNow) * r.Batt).sum
    let den := sumW * sumWXX - sumWX * sumWX
    if den = 0 then (0, 0, false)
    else
      let b := (sumW * sumWXY - sumWX * sumWY) / den
      let a := (sumWY - b * sumWX) / sumW
      (b, a, true)

/-- Modelled from the spec: the ordinary (unweighted) least-squares line
through the samples, in the same x-convention as the code (x = minutes
relative to the latest sample): the classical closed-form normal-equation
solutions `slope = (nΣxy − ΣxΣy)/(nΣxx − (Σx)²)` and
`intercept = (Σy − slope·Σx)/n`. -/
def olsLine (rows : List Row) : ℚ × ℚ :=
  let n : ℚ := rows.length
  let tNow := (rows.getLast?.getD default).T
  let sx := (rows.map fun r => r.T - tNow).sum
  let sy := (rows.map fun r => r.Batt).sum
  let sxx := (rows.map fun r => (r.T - tNow) * (r.T - tNow)).sum
  let sxy := (rows.map fun r => (r.T - tNow) * r.Batt).sum
  let slope := (n * sxy - sx * sy) / (n * sxx - sx * sx)
  (slope, (sy - slope * sx) / n)

/-- A Go float64 ETA value: either a finite value or `math.Inf(1)`. -/
inductive Est where
  | fin (q : ℚ)
  | inf
  deriving DecidableEq, Repr

/-- `analytics.CalculateRateAndEstimate` (utils.go lines 125-164):
returns `(rate, estimate, confidence, ok)`.  `maxChargePercent` is the Go
`int` argument. -/
def calculateRateAndEstimate (wfn : ℚ → ℚ) (rows : List Row)
    (currentBatt : ℚ) (maxChargePercent : ℤ) : ℚ × Est × String × Bool :=
  if rows.length < 2 then (0, Est.fin 0, "(need ≥2 samples with same AC state)", false)
  else
    let isCharging := rows.headI.AC
    let res := weightedLinReg wfn rows
    let rate := res.1
    if res.2.2 = false then (0, Est.fin 0, "(regression failed)", false)
    else if isCharging then
      if 1/1000000 < rate then
        (rate, Est.fin (((maxChargePercent : ℚ) - currentBatt) / rate),
          "(based on " ++ toString rows.length ++ " charging samples)", true)
      else
        (rate, Est.inf, "(not charging or already full)", true)
    else
      if rate < -(1/1000000) then
        (rate, Est.fin (-currentBatt / rate),
          "(based on " ++ toString rows.length ++ " discharging samples)", true)
      else
        (rate, Est.inf, "(not discharging)", true)

/-- `analytics.SuspendEvent` (utils.go lines 270-277). -/
structure SuspendEvent where
  StartTime : ℚ
  EndTime : ℚ
  Duration : ℚ
  BatteryBefore : ℚ
  BatteryAfter : ℚ
  BatteryDrop : ℚ
  deriving DecidableEq, Repr

/-- The event built from an adjacent pair of rows, exactly as in the loop
body of `DetectSuspendEvents`. -/
def mkSuspendEvent (a b : Row) : SuspendEvent :=
  ⟨a.T, b.T, b.T - a.T, a.Batt, b.Batt, a.Batt - b.Batt⟩

/-- The `for i := 1; ...` loop of `DetectSuspendEvents`: walks adjacent
pairs `(prev, r)` and emits an event when the gap reaches the threshold. -/
def detectLoop (prev : Row) (rest : List Row) (threshold : ℚ) : List SuspendEvent :=
  match rest with
  | [] => []
  | r :: rs =>
      (if threshold ≤ r.T - prev.T then [mkSuspendEvent prev r] else [])
        ++ detectLoop r rs threshold

/-- `analytics.DetectSuspendEvents` (utils.go lines 281-305). -/
def detectSuspendEvents (rows : List Row) (gapThresholdMinutes : ℤ) : List SuspendEvent :=
  if rows.length < 2 then []
  else
    match rows with
    | [] => []
    | r :: rs => detectLoop r rs (gapThresholdMinutes : ℚ)

/-- `analytics.ScreenOnTimeResult` (utils.go lines 308-313). -/
structure ScreenOnTimeResult where
  TotalActiveTime : ℚ
  SuspendTime : ℚ
  LastActiveSession : ℚ
  SuspendEvents : List SuspendEvent
  deriving DecidableEq, Repr

/-- `analytics.CalculateScreenOnTime` (utils.go lines 318-349). -/
def calculateScreenOnTime (rows : List Row) (gapThresholdMinutes : ℤ) : ScreenOnTimeResult :=
  if rows.length < 2 then ⟨0, 0, 0, []⟩
  else
    let events := detectSuspendEvents rows gapThresholdMinutes
    let suspendTime := (events.map SuspendEvent.Duration).sum
    let totalTimeSpan := (rows.getLast?.getD default).T - (rows.head?.getD default).T
    let active := totalTimeSpan - suspendTime
    let lastActive :=
      match events.getLast? with
      | some e => (rows.getLast?.getD default).T - e.EndTime
      | none => active
    ⟨active, suspendTime, lastActive, events⟩

/-- The start of the calendar day containing `t`
(`time.Date(Y, M, D, 0, 0, 0, 0, loc)`), modelled for a fixed-offset
location as flooring to a multiple of 1440 minutes. -/
def startOfDayQ (t : ℚ) : ℚ := 1440 * (⌊t / 1440⌋ : ℤ)

/-- `analytics.CalculateDailyScreenOnTime` (utils.go lines 353-370): note
the Go filter is `row.T.After(startOfDay) && row.T.Before(endOfDay)`,
i.e. strict on both sides. -/
def calculateDailyScreenOnTime (rows : List Row) (targetDate : ℚ)
    (gapThresholdMinutes : ℤ) : ScreenOnTimeResult :=
  let startOfDay := startOfDayQ targetDate
  let endOfDay := startOfDay + 1440
  let dayRows := rows.filter fun r => decide (startOfDay < r.T) && decide (r.T < endOfDay)
  if dayRows = [] then ⟨0, 0, 0, []⟩
  else calculateScreenOnTime dayRows gapThresholdMinutes

/-- Modelled from the spec (claim wording): filter to the half-open
calendar interval `[startOfDay, startOfDay+24h)` — a sample timestamped
exactly at `startOfDay` included — then delegate to screen-on-time, with
the zero value when nothing matches. -/
def dailyScreenOnTimeHalfOpen (rows : List Row) (targetDate : ℚ)
    (gapThresholdMinutes : ℤ) : ScreenOnTimeResult :=
  let startOfDay := startOfDayQ targetDate
  let endOfDay := startOfDay + 1440
  let dayRows := rows.filter fun r => decide (startOfDay ≤ r.T) && decide (r.T < endOfDay)
  if dayRows = [] then ⟨0, 0, 0, []⟩
  else calculateScreenOnTime dayRows gapThresholdMinutes

/-- The open-interval variant that the code actually implements (amended
claim wording): keep exactly the samples with
`startOfDay < T < startOfDay + 24h`. -/
def dailyScreenOnTimeOpen (rows : List Row) (targetDate : ℚ)
    (gapThresholdMinutes : ℤ) : ScreenOnTimeResult :=
  let startOfDay := startOfDayQ targetDate
  let endOfDay := startOfDay + 1440
  let dayRows := rows.filter fun r => decide (startOfDay < r.T) && decide (r.T < endOfDay)
  if dayRows = [] then ⟨0, 0, 0, []⟩
  else calculateScreenOnTime dayRows gapThresholdMinutes

/-- The navigation state of `widgets.BatteryChart` (timechart.go lines
35-74): the fields touched by zoom/pan.  `dataStart`/`dataEnd` are
`Option ℚ` because Go uses the zero `time.Time` as the "no bounds yet"
sentinel checked by `IsZero()`. -/
@[ext]
structure ChartState where
  windowStart : ℚ
  windowEnd : ℚ
  currentWindow : ℚ
  baseWindow : ℚ
  zoomStep : ℚ
  minWindow : ℚ
  maxWindow : ℚ
  dataStart : Option ℚ
  dataEnd : Option ℚ
  deriving DecidableEq, Repr

/-- `BatteryChart.zoom` (timechart.go lines 696-719): scale the window by
`1 ∓ zoomStep`, clamp below at `minWindow` (zoom in) or above at
`maxWindow` (zoom out), keep `windowEnd` fixed and recompute
`windowStart`. -/
def zoom (zoomIn : Bool) (tc : ChartState) : ChartState :=
  let nw :=
    if zoomIn then
      let w := tc.currentWindow * (1 - tc.zoomStep)
      if w < tc.minWindow then tc.minWindow else w
    else
      let w := tc.currentWindow * (1 + tc.zoomStep)
      if tc.maxWindow < w then tc.maxWindow else w
  { tc with currentWindow := nw, windowStart := tc.windowEnd - nw }

/-- `BatteryChart.pan` (timechart.go lines 735-776): shift the window by
10% of `currentWindow`, then clamp against the data bounds; a no-op when
the bounds are unset. -/
def pan (right : Bool) (tc : ChartState) : ChartState :=
  match tc.dataStart, tc.dataEnd with
  | some ds, some de =>
      let panDistance := tc.currentWindow * (1/10)
      let ns0 := if right then tc.windowStart + panDistance else tc.windowStart - panDistance
      let ne0 := if right then tc.windowEnd + panDistance else tc.windowEnd - panDistance
      let p1 := if ns0 < ds then (ds, ds + tc.currentWindow) else (ns0, ne0)
      let p2 :=
        if de < p1.2 then
          let ns1 := de - tc.currentWindow
          if ns1 < ds then (ds, de) else (ns1, de)
        else p1
      { tc with windowStart := p2.1, windowEnd := p2.2 }
  | _, _ => tc

/-- Rendering parameters for `BatteryChart.drawSeries`: the visible window
and y-range from the chart state, plus the braille canvas dimensions. -/
structure RenderCfg where
  startTime : ℚ
  endTime : ℚ
  yMin : ℚ
  yMax : ℚ
  brailleWidth : ℕ
  brailleHeight : ℕ
  deriving DecidableEq, Repr

/-- Go `int(f)` conversion of a float: truncation toward zero. -/
def goTrunc (q : ℚ) : ℤ := if q < 0 then ⌈q⌉ else ⌊q⌋

/-- `x := int(float64(brailleWidth) * point.Time.Sub(startTime).Seconds() /
timeSpan.Seconds())` (timechart.go line 562). -/
def timeToCol (C : RenderCfg) (t : ℚ) : ℤ :=
  goTrunc ((C.brailleWidth : ℚ) * (t - C.startTime) / (C.endTime - C.startTime))

/-- `y := brailleHeight - 1 - int(float64(brailleHeight)*(point.Value-tc.yMin)/
(tc.yMax-tc.yMin))` (timechart.go line 563). -/
def valueToRow (C : RenderCfg) (v : ℚ) : ℤ :=
  (C.brailleHeight : ℤ) - 1 - goTrunc ((C.brailleHeight : ℚ) * (v - C.yMin) / (C.yMax - C.yMin))

/-- A single TimePoint of a series (timechart.go lines 21-25). -/
structure TimePoint where
  Time : ℚ
  Value : ℚ
  State : Bool
  deriving DecidableEq, Repr

/-- A braille drawing call emitted by `drawSeries` (the series color is
uniform over the series and omitted). -/
inductive DrawOp where
  | line (a b : ℤ × ℤ)
  | pixel (p : ℤ × ℤ)
  deriving DecidableEq, Repr

/-- The loop state of `drawSeries`: `prevPoint` together with `prevTime`
(`prevTime` is only ever read while `prevPoint ≠ nil`, and both are always
written together, so they are packed in one option). -/
structure DrawState where
  prev : Option ((ℤ × ℤ) × ℚ)
  deriving DecidableEq, Repr

/-- One iteration of the `for _, point := range series.Points` loop of
`BatteryChart.drawSeries` (timechart.go lines 550-594): skip invisible
points (keeping the previous point), drop out-of-bounds coordinates
(resetting line continuity), and otherwise connect to the previous point
only when the time gap is at most 5 minutes. -/
def drawStep (C : RenderCfg) (st : DrawState) (p : TimePoint) : DrawState × List DrawOp :=
  if p.Time < C.startTime ∨ C.endTime < p.Time then (st, [])
  else
    let x := timeToCol C p.Time
    let y := valueToRow C p.Value
    if x < 0 ∨ (C.brailleWidth : ℤ) ≤ x ∨ y < 0 ∨ (C.brailleHeight : ℤ) ≤ y then
      (⟨none⟩, [])
    else
      match st.prev with
      | some (q, prevTime) =>
          if p.Time - prevTime ≤ 5 then
            (⟨some ((x, y), p.Time)⟩, [DrawOp.line q (x, y)])
          else
            (⟨some ((x, y), p.Time)⟩, [DrawOp.pixel (x, y)])
      | none => (⟨some ((x, y), p.Time)⟩, [DrawOp.pixel (x, y)])

/-- `BatteryChart.drawSeries` (timechart.go lines 532-597): the guard
clauses followed by the point loop, collecting the emitted drawing calls. -/
def drawSeries (C : RenderCfg) (points : List TimePoint) : List DrawOp :=
  if points = [] then []
  else if C.endTime - C.startTime ≤ 0 then []
  else
    (points.foldl
      (fun (acc : DrawState × List DrawOp) p =>
        let s := drawStep C acc.1 p
        (s.1, acc.2 ++ s.2))
      (⟨none⟩, [])).2

/-! Concrete inputs used by counterexamples and witnesses. -/

/-- A chart state with a 100-minute window, 10% zoom step, 5-minute
minimum window and 7-day maximum window (the defaults of
`CreateBatteryChart` apart from the window size fixed by claim C1). -/
def c1state : ChartState := ⟨-100, 0, 100, 1440, 1/10, 5, 10080, none, none⟩

/-- Three samples at minutes 0, 1, 2 of day zero; the first sits exactly at
the start of the day. -/
def c2rows : List Row := [⟨0, false, 90⟩, ⟨1, false, 89⟩, ⟨2, false, 88⟩]

/-- Two samples strictly inside day zero (no sample on the day boundary). -/
def c2browsOff : List Row := [⟨1, false, 90⟩, ⟨2, false, 89⟩]

/-- Two discharging samples with distinct timestamps. -/
def c5rows : List Row := [⟨0, false, 50⟩, ⟨10, false, 60⟩]

/-- A charging run rising from 50% to 60% over 10 minutes. -/
def c6rows : List Row := [⟨0, true, 50⟩, ⟨10, true, 60⟩]

/-- Samples at t = 0, 1, 2, 50, 51 minutes (spec §8 example). -/
def c7rows : List Row :=
  [⟨0, false, 90⟩, ⟨1, false, 89⟩, ⟨2, false, 88⟩, ⟨50, false, 80⟩, ⟨51, false, 79⟩]

/-- A 2-hour span sampled every 10 minutes with a single 20-minute gap
(50 → 70), the spec §8 screen-on-time example (threshold 15 minutes). -/
def sot2h : List Row :=
  [⟨0, false, 99⟩, ⟨10, false, 98⟩, ⟨20, false, 97⟩, ⟨30, false, 96⟩, ⟨40, false, 95⟩,
   ⟨50, false, 94⟩, ⟨70, false, 92⟩, ⟨80, false, 91⟩, ⟨90, false, 90⟩, ⟨100, false, 89⟩,
   ⟨110, false, 88⟩, ⟨120, false, 87⟩]

/-- A render surface over the window [0, 10] minutes, y-range 0-100, with a
10x4 braille grid. -/
def c9cfg : RenderCfg := ⟨0, 10, 0, 100, 10, 4⟩

/-- Two visible points 6 minutes apart. -/
def p6a : TimePoint := ⟨1, 50, false⟩

/-- Second point of the 6-minute pair. -/
def p6b : TimePoint := ⟨7, 50, false⟩

/-- A chart state pinned at the right data edge: data bounds [0, 100],
30-minute window ending at 100. -/
def s3c : ChartState := ⟨70, 100, 30, 1440, 1/10, 5, 10080, some 0, some 100⟩

/-! Helper lemmas. -/

/-- The loop of `DetectSuspendEvents` is the filter-map over adjacent
pairs. -/
lemma detectLoop_eq (l : List Row) : ∀ (a : Row) (thr : ℚ),
    detectLoop a l thr =
      (((a :: l).zip l).filter fun pr => decide (thr ≤ pr.2.T - pr.1.T)).map
        fun pr => mkSuspendEvent pr.1 pr.2 := by
  induction l with
  | nil => intro a thr; simp [detectLoop]
  | cons b rs ih =>
      intro a thr
      simp only [detectLoop, List.zip_cons_cons, List.filter_cons, ih b]
      by_cases h : thr ≤ b.T - a.T
      · simp [h]
      · simp [h]

/-- `pan` never changes the zoom level nor the data bounds. -/
lemma pan_preserves (b : Bool) (s : ChartState) :
    (pan b s).currentWindow = s.currentWindow
    ∧ (pan b s).dataStart = s.dataStart
    ∧ (pan b s).dataEnd = s.dataEnd := by
  cases h1 : s.dataStart <;> cases h2 : s.dataEnd <;> simp [pan, h1, h2]

/-- Iterating `pan` never changes the zoom level nor the data bounds. -/
lemma iterate_pan_preserves (b : Bool) (n : ℕ) (s : ChartState) :
    ((pan b)^[n] s).currentWindow = s.currentWindow
    ∧ ((pan b)^[n] s).dataStart = s.dataStart
    ∧ ((pan b)^[n] s).dataEnd = s.dataEnd := by
  induction n generalizing s with
  | zero => simp
  | succ k ih =>
      rw [Function.iterate_succ_apply]
      obtain ⟨e1, e2, e3⟩ := ih (pan b s)
      obtain ⟨f1, f2, f3⟩ := pan_preserves b s
      exact ⟨e1.trans f1, e2.trans f2, e3.trans f3⟩

/-- A single right pan never moves the window end past the data end. -/
lemma pan_right_end_le (s : ChartState) (ds de : ℚ)
    (h1 : s.dataStart = some ds) (h2 : s.dataEnd = some de)
    (hw : s.currentWindow ≤ de - ds) : (pan true s).windowEnd ≤ de := by
  simp only [pan, h1, h2]
  split_ifs <;> simp <;> linarith

/-- Zooming in always lands at or above the minimum window, and preserves
the minimum-window configuration. -/
lemma zoom_in_min (s : ChartState) :
    s.minWindow ≤ (zoom true s).currentWindow
    ∧ (zoom true s).minWindow = s.minWindow := by
  refine ⟨?_, by simp [zoom]⟩
  simp only [zoom, if_true]
  split
  · exact le_refl _
  · exact le_of_not_lt (by assumption)

/-- C7: `DetectSuspendEvents` emits exactly one event, in chronological
order, for each adjacent pair whose gap reaches the threshold, with
`BatteryDrop = batteryBefore − batteryAfter`; on samples at minutes
0, 1, 2, 50, 51 with a 5-minute threshold it yields exactly one event
spanning minute 2 to minute 50. -/
theorem detect_suspend_events_spec :
    (∀ (rows : List Row) (m : ℤ),
      detectSuspendEvents rows m =
        ((rows.zip rows.tail).filter fun pr => decide ((m : ℚ) ≤ pr.2.T - pr.1.T)).map
          fun pr => mkSuspendEvent pr.1 pr.2)
    ∧ detectSuspendEvents c7rows 5 = [⟨2, 50, 48, 88, 80, 8⟩] := by
  constructor
  · intro rows m
    match rows with
    | [] => simp [detectSuspendEvents]
    | [r] => simp [detectSuspendEvents]
    | r :: b :: rs =>
        rw [detectSuspendEvents]
        rw [if_neg (by simp)]
        rw [detectLoop_eq]
        rfl
  · norm_num [detectSuspendEvents, detectLoop, mkSuspendEvent, c7rows]

/-- C8: for at least two samples, `CalculateScreenOnTime` reports the
sample span minus the total suspend time as active time, the events list
itself, and the time since the last suspend event (or the full active time
when there is none); fewer than two samples give the zero result; the
2-hour/20-minute-gap example yields 100 active minutes. -/
theorem screen_on_time_spec :
    (∀ (rows : List Row) (m : ℤ), rows.length < 2 →
      calculateScreenOnTime rows m = ⟨0, 0, 0, []⟩)
    ∧ (∀ (rows : List Row) (m : ℤ), 2 ≤ rows.length →
        (calculateScreenOnTime rows m).SuspendEvents = detectSuspendEvents rows m
        ∧ (calculateScreenOnTime rows m).TotalActiveTime =
            ((rows.getLast?.getD default).T - (rows.head?.getD default).T)
              - ((detectSuspendEvents rows m).map SuspendEvent.Duration).sum
        ∧ (∀ e, (detectSuspendEvents rows m).getLast? = some e →
            (calculateScreenOnTime rows m).LastActiveSession =
              (rows.getLast?.getD default).T - e.EndTime)
        ∧ (detectSuspendEvents rows m = [] →
            (calculateScreenOnTime rows m).LastActiveSession =
              (calculateScreenOnTime rows m).TotalActiveTime))
    ∧ (calculateScreenOnTime sot2h 15).TotalActiveTime = 100 := by
  refine ⟨?_, ?_, ?_⟩
  case refine_3 =>
    norm_num [calculateScreenOnTime, detectSuspendEvents, detectLoop, mkSuspendEvent, sot2h]
  · intro rows m h
    simp [calculateScreenOnTime, h]
  · intro rows m h
    have hlt : ¬ rows.length < 2 := Nat.not_lt.mpr h
    refine ⟨?_, ?_, ?_, ?_⟩
    · simp [calculateScreenOnTime, hlt]
    · simp [calculateScreenOnTime, hlt]
    · intro e he
      simp [calculateScreenOnTime, hlt, he]
    · intro h0
      simp [calculateScreenOnTime, hlt, h0]

theorem screen_on_time_spec_witness :
    (calculateScreenOnTime sot2h 15).TotalActiveTime =
      ((sot2h.getLast?.getD default).T - (sot2h.head?.getD default).T)
        - ((detectSuspendEvents sot2h 15).map SuspendEvent.Duration).sum :=
  (screen_on_time_spec.2.1 sot2h 15 (by norm_num [sot2h])).2.1

/-- Zooming preserves the zoom configuration and the anchored window
end. -/
lemma zoom_preserves_cfg (b : Bool) (s : ChartState) :
    (zoom b s).zoomStep = s.zoomStep ∧ (zoom b s).minWindow = s.minWindow
    ∧ (zoom b s).maxWindow = s.maxWindow ∧ (zoom b s).windowEnd = s.windowEnd := by
  simp [zoom]

/-- The zoom-in clamp step in closed form. -/
lemma zoomin_clamp_step (x : ℚ) :
    (if (max 5 x) * (1 - 1/10) < 5 then (5:ℚ) else (max 5 x) * (1 - 1/10))
      = max 5 (x * (9/10)) := by
  have h910 : (1 - 1/10 : ℚ) = 9/10 := by norm_num
  rw [h910]
  rcases le_total x 5 with hc | hc
  · rw [max_eq_left hc, if_pos (by norm_num), eq_comm, max_eq_left]
    nlinarith
  · rw [max_eq_right hc]
    by_cases hd : x * (9/10) < 5
    · rw [if_pos hd, eq_comm, max_eq_left]
      linarith
    · rw [if_neg hd, eq_comm, max_eq_right]
      linarith [not_lt.mp hd]

/-- Closed form of the window duration after `n` zoom-ins from `c1state`:
`max 5 (100·(9/10)ⁿ)` minutes. -/
lemma c1_duration_formula : ∀ n : ℕ,
    ((zoom true)^[n] c1state).currentWindow = max 5 (100 * (9/10 : ℚ)^n)
    ∧ ((zoom true)^[n] c1state).zoomStep = 1/10
    ∧ ((zoom true)^[n] c1state).minWindow = 5 := by
  intro n
  induction n with
  | zero =>
      refine ⟨?_, rfl, rfl⟩
      norm_num [c1state]
  | succ k ih =>
      obtain ⟨h1, h2, h3⟩ := ih
      rw [Function.iterate_succ_apply']
      obtain ⟨g1, g2, g3, g4⟩ := zoom_preserves_cfg true ((zoom true)^[k] c1state)
      refine ⟨?_, g1.trans h2, g2.trans h3⟩
      simp only [zoom, if_true, h1, h2, h3]
      rw [zoomin_clamp_step, pow_succ, ← mul_assoc]

/-- C1 (counterexample): ten zoom-ins from the 100-minute window do not
produce a 5-minute window (the duration is ≈ 34.87 minutes). -/
theorem zoomin_ten_not_five : ((zoom true)^[10] c1state).currentWindow ≠ 5 := by
  rw [(c1_duration_formula 10).1, max_eq_right (by norm_num)]
  norm_num

/-- C1 (amended): ten zoom-ins from a 100-minute window with a 10% step and
a 5-minute minimum yield a duration of exactly `100·(9/10)¹⁰` =
34.86784401 minutes; twenty-nine zoom-ins converge to exactly 5 minutes;
and no sequence of zoom-ins ever produces a duration below the minimum
window. -/
theorem zoomin_floor_respected :
    ((zoom true)^[10] c1state).currentWindow = 3486784401/100000000
    ∧ ((zoom true)^[29] c1state).currentWindow = 5
    ∧ (∀ (n : ℕ) (s : ChartState), s.minWindow ≤ s.currentWindow →
        s.minWindow ≤ ((zoom true)^[n] s).currentWindow) := by
  refine ⟨?_, ?_, ?_⟩
  · rw [(c1_duration_formula 10).1, max_eq_right (by norm_num)]
    norm_num
  · rw [(c1_duration_formula 29).1, max_eq_left (by norm_num)]
  · intro n
    induction n with
    | zero => intro s h; simpa using h
    | succ k ih =>
        intro s h
        rw [Function.iterate_succ_apply]
        have h1 := zoom_in_min s
        calc s.minWindow = (zoom true s).minWindow := h1.2.symm
        _ ≤ ((zoom true)^[k] (zoom true s)).currentWindow := by
            apply ih
            rw [h1.2]
            exact h1.1

theorem zoomin_floor_respected_witness :
    c1state.minWindow ≤ ((zoom true)^[3] c1state).currentWindow :=
  zoomin_floor_respected.2.2 3 c1state (by norm_num [c1state])

/-- C2 (counterexample): on samples at minutes 0, 1, 2 of day zero,
`CalculateDailyScreenOnTime` disagrees with the claimed half-open-interval
behaviour — the sample at exactly the start of the day is excluded by the
code's strict `After` comparison. -/
theorem daily_sot_boundary_excluded :
    calculateDailyScreenOnTime c2rows 0 5 ≠ dailyScreenOnTimeHalfOpen c2rows 0 5 := by
  norm_num [calculateDailyScreenOnTime, dailyScreenOnTimeHalfOpen, startOfDayQ, c2rows,
    calculateScreenOnTime, detectSuspendEvents, detectLoop, mkSuspendEvent,
    List.cons_ne_nil]

/-- C2 (amended): `CalculateDailyScreenOnTime` keeps exactly the samples in
the open interval `(startOfDay, startOfDay+24h)` — a sample exactly at the
start of the day is excluded — then returns `ScreenOnTime` of that subset
(zero value when nothing matches); the half-open description is accurate
whenever no sample falls exactly on the day start. -/
theorem daily_sot_open_interval :
    (∀ (rows : List Row) (d : ℚ) (m : ℤ),
      calculateDailyScreenOnTime rows d m = dailyScreenOnTimeOpen rows d m)
    ∧ (∀ (rows : List Row) (d : ℚ) (m : ℤ),
        (∀ r ∈ rows, r.T ≠ startOfDayQ d) →
        calculateDailyScreenOnTime rows d m = dailyScreenOnTimeHalfOpen rows d m) := by
  constructor
  · intro rows d m
    rfl
  · intro rows d m hb
    have hf : (rows.filter fun r =>
          decide (startOfDayQ d < r.T) && decide (r.T < startOfDayQ d + 1440))
        = rows.filter fun r =>
          decide (startOfDayQ d ≤ r.T) && decide (r.T < startOfDayQ d + 1440) := by
      apply List.filter_congr
      intro r hr
      have hne := hb r hr
      have hiff : startOfDayQ d < r.T ↔ startOfDayQ d ≤ r.T :=
        ⟨le_of_lt, fun hle => lt_of_le_of_ne hle (Ne.symm hne)⟩
      congr 1
      exact decide_eq_decide.mpr hiff
    simp only [calculateDailyScreenOnTime, dailyScreenOnTimeHalfOpen]
    rw [hf]

theorem daily_sot_open_interval_witness :
    calculateDailyScreenOnTime c2browsOff 0 5 = dailyScreenOnTimeHalfOpen c2browsOff 0 5 :=
  daily_sot_open_interval.2 c2browsOff 0 5 (by
    intro r hr
    simp only [c2browsOff, List.mem_cons, List.not_mem_nil, or_false] at hr
    rcases hr with h | h <;> rw [h] <;> norm_num [startOfDayQ])

/-- C3: with known data bounds and a window no wider than the data span,
repeatedly panning right never pushes the window end past the data end,
and once the window is pinned at the data end (start = end − duration) a
further right pan returns the identical state. -/
theorem pan_right_pinned (s : ChartState) (ds de : ℚ)
    (h1 : s.dataStart = some ds) (h2 : s.dataEnd = some de)
    (hw0 : 0 ≤ s.currentWindow) (hw : s.currentWindow ≤ de - ds) :
    (∀ n : ℕ, 1 ≤ n → ((pan true)^[n] s).windowEnd ≤ de)
    ∧ (s.windowEnd = de → s.windowStart = de - s.currentWindow →
        pan true s = s) := by
  constructor
  · intro n hn
    obtain ⟨k, rfl⟩ : ∃ k, n = k + 1 := ⟨n - 1, by omega⟩
    rw [Function.iterate_succ_apply']
    obtain ⟨e1, e2, e3⟩ := iterate_pan_preserves true k s
    exact pan_right_end_le _ ds de (e2.trans h1) (e3.trans h2) (by rw [e1]; exact hw)
  · intro hE hS
    have key : (pan true s).windowStart = s.windowStart
        ∧ (pan true s).windowEnd = s.windowEnd := by
      simp only [pan, h1, h2]
      split_ifs <;> constructor <;> simp <;> linarith
    refine ChartState.ext key.1 key.2 ?_ ?_ ?_ ?_ ?_ ?_ ?_ <;> simp [pan, h1, h2]

theorem pan_right_pinned_witness : pan true s3c = s3c :=
  (pan_right_pinned s3c 0 100 rfl rfl (by norm_num [s3c]) (by norm_num [s3c])).2
    (by norm_num [s3c]) (by norm_num [s3c])

/-- C4: under the window-size invariant, zooming sets the new duration to
`duration × (1 ∓ step)` clamped into `[minWindow, maxWindow]` (so the
invariant is preserved), holds the window end fixed, recomputes
`start = end − duration`, and is independent of the data bounds. -/
theorem zoom_transition (s : ChartState)
    (hstep0 : 0 ≤ s.zoomStep) (hmin0 : 0 ≤ s.minWindow)
    (hmm : s.minWindow ≤ s.maxWindow)
    (hlo : s.minWindow ≤ s.currentWindow) (hhi : s.currentWindow ≤ s.maxWindow) :
    ∀ zin : Bool,
      (zoom zin s).currentWindow =
        max s.minWindow (min s.maxWindow
          (s.currentWindow * (if zin then 1 - s.zoomStep else 1 + s.zoomStep)))
      ∧ s.minWindow ≤ (zoom zin s).currentWindow
      ∧ (zoom zin s).currentWindow ≤ s.maxWindow
      ∧ (zoom zin s).windowEnd = s.windowEnd
      ∧ (zoom zin s).windowStart = (zoom zin s).windowEnd - (zoom zin s).currentWindow
      ∧ (∀ o1 o2 : Option ℚ,
          zoom zin { s with dataStart := o1, dataEnd := o2 }
            = { zoom zin s with dataStart := o1, dataEnd := o2 }) := by
  intro zin
  have hw0 : 0 ≤ s.currentWindow := le_trans hmin0 hlo
  have hcw : ∀ b : Bool, (zoom b s).currentWindow =
      max s.minWindow (min s.maxWindow
        (s.currentWindow * (if b then 1 - s.zoomStep else 1 + s.zoomStep))) := by
    intro b
    cases b
    · simp only [zoom, Bool.false_eq_true, if_false]
      have hge : s.minWindow ≤ s.currentWindow * (1 + s.zoomStep) := by
        nlinarith [mul_nonneg hw0 hstep0]
      by_cases hB : s.maxWindow < s.currentWindow * (1 + s.zoomStep)
      · rw [if_pos hB, min_eq_left hB.le, max_eq_right hmm]
      · rw [if_neg hB, min_eq_right (not_lt.mp hB), max_eq_right hge]
    · simp only [zoom, if_true]
      have hle : s.currentWindow * (1 - s.zoomStep) ≤ s.maxWindow := by
        rcases le_total s.zoomStep 1 with h | h
        · nlinarith [mul_nonneg hw0 hstep0]
        · nlinarith
      rw [min_eq_right hle]
      by_cases hA : s.currentWindow * (1 - s.zoomStep) < s.minWindow
      · rw [if_pos hA, max_eq_left hA.le]
      · rw [if_neg hA, max_eq_right (not_lt.mp hA)]
  refine ⟨hcw zin, ?_, ?_, by simp [zoom], by simp [zoom], ?_⟩
  · rw [hcw zin]
    exact le_max_left _ _
  · rw [hcw zin]
    exact max_le hmm (min_le_left _ _)
  · intro o1 o2
    simp [zoom]

theorem zoom_transition_witness :
    (zoom true c1state).currentWindow =
      max c1state.minWindow (min c1state.maxWindow
        (c1state.currentWindow * (if true then 1 - c1state.zoomStep else 1 + c1state.zoomStep)))
    ∧ c1state.minWindow ≤ (zoom true c1state).currentWindow
    ∧ (zoom true c1state).currentWindow ≤ c1state.maxWindow
    ∧ (zoom true c1state).windowEnd = c1state.windowEnd := by
  have h := zoom_transition c1state (by norm_num [c1state]) (by norm_num [c1state])
    (by norm_num [c1state]) (by norm_num [c1state]) (by norm_num [c1state]) true
  exact ⟨h.1, h.2.1, h.2.2.1, h.2.2.2.1⟩

/-- C9: whenever the renderer's loop reaches a visible, in-bounds point
with a previously drawn point, it emits a connecting line segment if and
only if the time gap is at most 5 minutes, and an isolated pixel when the
gap is larger; the concrete pair 6 minutes apart renders as two
disconnected pixels. -/
theorem gap_segmentation :
    (∀ (C : RenderCfg) (st : DrawState) (q : ℤ × ℤ) (tp : ℚ) (p : TimePoint),
      st.prev = some (q, tp) →
      C.startTime ≤ p.Time → p.Time ≤ C.endTime →
      0 ≤ timeToCol C p.Time → timeToCol C p.Time < (C.brailleWidth : ℤ) →
      0 ≤ valueToRow C p.Value → valueToRow C p.Value < (C.brailleHeight : ℤ) →
      ((p.Time - tp ≤ 5 →
        drawStep C st p =
          (⟨some ((timeToCol C p.Time, valueToRow C p.Value), p.Time)⟩,
           [DrawOp.line q (timeToCol C p.Time, valueToRow C p.Value)]))
      ∧ (5 < p.Time - tp →
        drawStep C st p =
          (⟨some ((timeToCol C p.Time, valueToRow C p.Value), p.Time)⟩,
           [DrawOp.pixel (timeToCol C p.Time, valueToRow C p.Value)]))))
    ∧ drawSeries c9cfg [p6a, p6b] = [DrawOp.pixel (1, 1), DrawOp.pixel (7, 1)] := by
  constructor
  · intro C st q tp p hprev hv1 hv2 hx1 hx2 hy1 hy2
    have hvis : ¬ (p.Time < C.startTime ∨ C.endTime < p.Time) := by
      push_neg
      exact ⟨hv1, hv2⟩
    have hbounds : ¬ (timeToCol C p.Time < 0 ∨ (C.brailleWidth : ℤ) ≤ timeToCol C p.Time
        ∨ valueToRow C p.Value < 0 ∨ (C.brailleHeight : ℤ) ≤ valueToRow C p.Value) := by
      push_neg
      exact ⟨hx1, hx2, hy1, hy2⟩
    constructor
    · intro hgap
      simp [drawStep, hvis, hbounds, hprev, hgap]
    · intro hgap
      simp [drawStep, hvis, hbounds, hprev, not_le.mpr hgap]
  · norm_num [drawSeries, drawStep, timeToCol, valueToRow, goTrunc, c9cfg, p6a, p6b,
      List.cons_ne_nil]

theorem gap_segmentation_witness :
    drawStep c9cfg ⟨some ((1, 1), 1)⟩ ⟨3, 50, false⟩ =
      (⟨some ((3, 1), 3)⟩, [DrawOp.line (1, 1) (3, 1)]) := by
  have h := (gap_segmentation.1 c9cfg ⟨some ((1, 1), 1)⟩ (1, 1) 1 ⟨3, 50, false⟩
    rfl (by norm_num [c9cfg]) (by norm_num [c9cfg])
    (by norm_num [c9cfg, timeToCol, goTrunc])
    (by norm_num [c9cfg, timeToCol, goTrunc])
    (by norm_num [c9cfg, valueToRow, goTrunc])
    (by norm_num [c9cfg, valueToRow, goTrunc])).1 (by norm_num)
  rw [h]
  norm_num [c9cfg, timeToCol, valueToRow, goTrunc]

/-- C10: a visible sample whose value equals the configured axis maximum
maps to row −1, is treated as out of bounds (nothing is drawn for it), and
resets line continuity, regardless of the previous draw state. -/
theorem ymax_sample_dropped (C : RenderCfg) (st : DrawState) (p : TimePoint)
    (hy : C.yMin < C.yMax) (hv : p.Value = C.yMax)
    (h1 : C.startTime ≤ p.Time) (h2 : p.Time ≤ C.endTime) :
    valueToRow C p.Value = -1 ∧ drawStep C st p = (⟨none⟩, []) := by
  have hrow : valueToRow C p.Value = -1 := by
    rw [hv]
    unfold valueToRow
    rw [mul_div_assoc, div_self (sub_ne_zero.mpr (ne_of_gt hy)), mul_one]
    unfold goTrunc
    rw [if_neg (not_lt.mpr (by positivity)), Int.floor_natCast]
    ring
  refine ⟨hrow, ?_⟩
  have hvis : ¬ (p.Time < C.startTime ∨ C.endTime < p.Time) := by
    push_neg
    exact ⟨h1, h2⟩
  have hoob : timeToCol C p.Time < 0 ∨ (C.brailleWidth : ℤ) ≤ timeToCol C p.Time
      ∨ valueToRow C p.Value < 0 ∨ (C.brailleHeight : ℤ) ≤ valueToRow C p.Value := by
    right; right; left
    rw [hrow]
    norm_num
  simp [drawStep, hvis, hoob]

theorem ymax_sample_dropped_witness :
    valueToRow c9cfg (100 : ℚ) = -1
    ∧ drawStep c9cfg ⟨some ((1, 1), 1)⟩ ⟨5, 100, false⟩ = (⟨none⟩, []) :=
  ymax_sample_dropped c9cfg ⟨some ((1, 1), 1)⟩ ⟨5, 100, false⟩
    (by norm_num [c9cfg]) rfl (by norm_num [c9cfg]) (by norm_num [c9cfg])

/-- A list sum of mapped values as a sum over index positions. -/
lemma list_map_sum {α : Type} (l : List α) (g : α → ℚ) :
    (l.map g).sum = ∑ i : Fin l.length, g (l.get i) := by
  conv_lhs => rw [← List.ofFn_get l]
  rw [List.map_ofFn, List.sum_ofFn]
  rfl

/-- The least-squares denominator `n·Σx² − (Σx)²` is strictly positive as
soon as two of the values differ. -/
lemma ls_den_pos (n : ℕ) (f : Fin n → ℚ) (i j : Fin n) (hij : f i ≠ f j) :
    0 < (n : ℚ) * (∑ k, f k * f k) - (∑ k, f k) * (∑ k, f k) := by
  have key : ∑ a : Fin n, ∑ b : Fin n, (f a - f b) * (f a - f b)
      = 2 * ((n : ℚ) * (∑ k, f k * f k) - (∑ k, f k) * (∑ k, f k)) := by
    have h1 : ∀ a : Fin n, ∑ b : Fin n, (f a - f b) * (f a - f b)
        = (n : ℚ) * (f a * f a) - 2 * (f a * ∑ k, f k) + ∑ k, f k * f k := by
      intro a
      have e : ∀ b : Fin n, (f a - f b) * (f a - f b)
          = f a * f a - 2 * (f a * f b) + f b * f b := fun b => by ring
      rw [Finset.sum_congr rfl fun b _ => e b]
      rw [Finset.sum_add_distrib, Finset.sum_sub_distrib, Finset.sum_const,
        ← Finset.mul_sum, ← Finset.mul_sum, Finset.card_univ, Fintype.card_fin,
        nsmul_eq_mul]
    rw [Finset.sum_congr rfl fun a _ => h1 a, Finset.sum_add_distrib,
      Finset.sum_sub_distrib, Finset.sum_const, Finset.card_univ, Fintype.card_fin,
      nsmul_eq_mul, ← Finset.mul_sum, ← Finset.mul_sum, ← Finset.sum_mul]
    ring
  have pos : 0 < ∑ a : Fin n, ∑ b : Fin n, (f a - f b) * (f a - f b) := by
    have hterm : 0 < (f i - f j) * (f i - f j) :=
      mul_self_pos.mpr (sub_ne_zero.mpr hij)
    have hinner : 0 < ∑ b : Fin n, (f i - f b) * (f i - f b) :=
      lt_of_lt_of_le hterm
        (Finset.single_le_sum (fun b _ => mul_self_nonneg (f i - f b)) (Finset.mem_univ j))
    exact Finset.sum_pos'
      (fun a _ => Finset.sum_nonneg fun b _ => mul_self_nonneg (f a - f b))
      ⟨i, Finset.mem_univ i, hinner⟩
  linarith [key ▸ pos]

/-- C5: at decay α = 0 (uniform weights, `exp(0·x) = 1`), `WeightedLinReg`
returns exactly the ordinary least-squares slope and intercept with
ok = true, on any sample list of size ≥ 2 containing two distinct
timestamps (equivalently, two distinct regression x-values). -/
theorem weighted_reg_alpha_zero_is_ols (rows : List Row)
    (h2 : 2 ≤ rows.length)
    (hx : ∃ a ∈ rows, ∃ b ∈ rows, a.T ≠ b.T) :
    weightedLinReg weightOne rows = ((olsLine rows).1, (olsLine rows).2, true) := by
  obtain ⟨a, ha, b, hb, hab⟩ := hx
  have hnl : ¬ rows.length < 2 := Nat.not_lt.mpr h2
  simp only [weightedLinReg, olsLine, hnl, if_false]
  set tNow := (rows.getLast?.getD default).T with htN
  obtain ⟨ia, hia⟩ := List.mem_iff_get.mp ha
  obtain ⟨ib, hib⟩ := List.mem_iff_get.mp hb
  have hfij : (fun i => (rows.get i).T - tNow) ia ≠ (fun i => (rows.get i).T - tNow) ib := by
    simp only
    rw [hia, hib]
    intro h
    apply hab
    linarith
  have hden := ls_den_pos rows.length (fun i => (rows.get i).T - tNow) ia ib hfij
  have e1 : (rows.map fun r => weightOne (r.T - tNow)).sum = (rows.length : ℚ) := by
    simp [weightOne]
  have e2 : (rows.map fun r => weightOne (r.T - tNow) * (r.T - tNow)).sum
      = (rows.map fun r => r.T - tNow).sum := by
    simp [weightOne]
  have e3 : (rows.map fun r => weightOne (r.T - tNow) * r.Batt).sum
      = (rows.map fun r => r.Batt).sum := by
    simp [weightOne]
  have e4 : (rows.map fun r => weightOne (r.T - tNow) * (r.T - tNow) * (r.T - tNow)).sum
      = (rows.map fun r => (r.T - tNow) * (r.T - tNow)).sum := by
    simp [weightOne]
  have e5 : (rows.map fun r => weightOne (r.T - tNow) * (r.T - tNow) * r.Batt).sum
      = (rows.map fun r => (r.T - tNow) * r.Batt).sum := by
    simp [weightOne]
  have hden' : (rows.length : ℚ) * (rows.map fun r => (r.T - tNow) * (r.T - tNow)).sum
      - (rows.map fun r => r.T - tNow).sum * (rows.map fun r => r.T - tNow).sum ≠ 0 := by
    rw [list_map_sum rows fun r => (r.T - tNow) * (r.T - tNow),
      list_map_sum rows fun r => r.T - tNow]
    exact ne_of_gt hden
  rw [e1, e2, e3, e4, e5, if_neg hden']

theorem weighted_reg_alpha_zero_is_ols_witness :
    weightedLinReg weightOne c5rows = ((olsLine c5rows).1, (olsLine c5rows).2, true) :=
  weighted_reg_alpha_zero_is_ols c5rows (by norm_num [c5rows])
    ⟨⟨0, false, 50⟩, by norm_num [c5rows], ⟨10, false, 60⟩, by norm_num [c5rows],
      by norm_num⟩

/-- C6: on a run of ≥ 2 samples where the regression succeeds with slope
`rate`, `CalculateRateAndEstimate` returns, for a charging run, the finite
ETA `(maxChargeTarget − currentBatt)/rate` exactly when `rate > 1e-6` and
an infinite ETA with confidence "(not charging or already full)"
otherwise; for a discharging run, the finite ETA `−currentBatt/rate`
exactly when `rate < −1e-6` and an infinite ETA with "(not discharging)"
otherwise — the finite ETAs are computed from the live `currentBatt`
argument, never from the regression intercept. -/
theorem rate_and_estimate_branches (wfn : ℚ → ℚ) (rows : List Row)
    (cur : ℚ) (maxT : ℤ) (slope icpt : ℚ)
    (h2 : 2 ≤ rows.length)
    (hreg : weightedLinReg wfn rows = (slope, icpt, true)) :
    (rows.headI.AC = true →
      ((1/1000000 < slope →
        calculateRateAndEstimate wfn rows cur maxT =
          (slope, Est.fin (((maxT : ℚ) - cur) / slope),
            "(based on " ++ toString rows.length ++ " charging samples)", true))
      ∧ (slope ≤ 1/1000000 →
        calculateRateAndEstimate wfn rows cur maxT =
          (slope, Est.inf, "(not charging or already full)", true))))
    ∧ (rows.headI.AC = false →
      ((slope < -(1/1000000) →
        calculateRateAndEstimate wfn rows cur maxT =
          (slope, Est.fin (-cur / slope),
            "(based on " ++ toString rows.length ++ " discharging samples)", true))
      ∧ (-(1/1000000) ≤ slope →
        calculateRateAndEstimate wfn rows cur maxT =
          (slope, Est.inf, "(not discharging)", true)))) := by
  have hnl : ¬ rows.length < 2 := Nat.not_lt.mpr h2
  constructor
  · intro hAC
    constructor
    · intro hcmp
      simp [calculateRateAndEstimate, hnl, hreg, hAC, hcmp]
      linarith
    · intro hcmp
      simp [calculateRateAndEstimate, hnl, hreg, hAC, not_lt.mpr hcmp]
      linarith
  · intro hAC
    constructor
    · intro hcmp
      simp [calculateRateAndEstimate, hnl, hreg, hAC, hcmp]
      linarith
    · intro hcmp
      simp [calculateRateAndEstimate, hnl, hreg, hAC, not_lt.mpr hcmp]
      linarith

theorem rate_and_estimate_branches_witness :
    calculateRateAndEstimate weightOne c6rows 60 100 =
      (1, Est.fin 40, "(based on 2 charging samples)", true) := by
  have hreg : weightedLinReg weightOne c6rows = (1, 60, true) := by
    norm_num [weightedLinReg, weightOne, c6rows]
  have h := ((rate_and_estimate_branches weightOne c6rows 60 100 1 60
    (by norm_num [c6rows]) hreg).1 rfl).1 (by norm_num)
  rw [h]
  have hlen : c6rows.length = 2 := rfl
  rw [hlen]
  norm_num
  rfl

end BatteryLogger
